import Mathlib

/-!
Verification development for the Concordium discord bot's chain-event
ingestion, correlation and aggregation engine.

The definitions below are shallow embeddings of the JavaScript source:
* string normalization (`normAddr`, `normMemo`) from `modules/txloggerListener.js`;
* the memo-waiter registry (`registerDelegatorMemoWaiter`, `pruneWaiters`)
  and the per-transaction correlation pass of `processBlock`;
* the block-stream ingestion loop with gap backfill (`startTxLoggerListener`);
* the CLI fallback readers (`memoFromCLI`, `senderFromCLI`) and the
  `retryAsync` helper from `utils/retry.js`;
* the commission and new-delegator aggregation buckets from
  `modules/alerts.js`.

JavaScript `Map` values are modelled as association lists with the same
observable get/set/delete behaviour, JS numbers as rationals (with `none`
standing for `NaN` where it matters), and nullable values as `Option`.
-/

/-- JS regex class `\s` restricted to the characters that can actually occur
after `normMemo` has replaced the control range and U+00A0 by plain spaces:
space, tab, line feed, carriage return, vertical tab, form feed. -/
def isSpaceChar (c : Char) : Bool :=
  c = ' ' || c = '\t' || c = '\n' || c = '\r' || c.val = 11 || c.val = 12

/-- Drop leading whitespace characters (one side of `String.prototype.trim`). -/
def dropLeadingSpaces : List Char → List Char
  | [] => []
  | c :: rest => if isSpaceChar c then dropLeadingSpaces rest else c :: rest

/-- Both-sided trim, as `String.prototype.trim()` on the character list. -/
def trimChars (l : List Char) : List Char :=
  (dropLeadingSpaces (dropLeadingSpaces l.reverse).reverse)

/-- One character of `String.prototype.toLowerCase()` (ASCII range, which is
all the source ever feeds it: base58 addresses and numeric memos). -/
def lowerChar (c : Char) : Char := c.toLower

/-- Embeds `normAddr` (txloggerListener.js): `String(a).trim().toLowerCase()`;
`null`/`undefined` are handled by callers passing `Option`. -/
def normAddr (a : String) : String :=
  String.mk ((trimChars a.data).map lowerChar)

/-- Replace the control range U+0000-U+001F, U+007F and U+00A0 by spaces,
the first substitution step of `normMemo`. -/
def memoCtrlToSpace (c : Char) : Char :=
  if c.val ≤ 31 || c.val = 127 || c.val = 160 then ' ' else c

/-- Collapse every run of whitespace to a single space (`replace(/\s+/g, " ")`).
The boolean tracks whether the previous character was whitespace. -/
def collapseSpacesAux : Bool → List Char → List Char
  | _, [] => []
  | prevSpace, c :: rest =>
    if isSpaceChar c then
      if prevSpace then collapseSpacesAux true rest
      else ' ' :: collapseSpacesAux true rest
    else c :: collapseSpacesAux false rest

/-- Embeds `normMemo` (txloggerListener.js): NFKC normalization (the identity
on the ASCII data this system compares: digit memos), control characters to
spaces, whitespace runs collapsed, trimmed, lower-cased. -/
def normMemo (s : String) : String :=
  String.mk
    ((trimChars (collapseSpacesAux false (s.data.map memoCtrlToSpace))).map lowerChar)

/-- Association-list lookup, modelling `Map.prototype.get`. -/
def alookup {α : Type} : List (String × α) → String → Option α
  | [], _ => none
  | (k, v) :: rest, key => if k = key then some v else alookup rest key

/-- Membership test, modelling `Map.prototype.has`. -/
def acontains {α : Type} (m : List (String × α)) (k : String) : Bool :=
  (alookup m k).isSome

/-- Modelling `Map.prototype.set`: replace in place when the key exists
(keeping insertion order), otherwise append. -/
def aset {α : Type} : List (String × α) → String → α → List (String × α)
  | [], k, v => [(k, v)]
  | (k2, v2) :: rest, k, v =>
    if k2 = k then (k, v) :: rest else (k2, v2) :: aset rest k v

/-- Modelling `Map.prototype.delete` (on key-nodup maps the two coincide). -/
def aerase {α : Type} : List (String × α) → String → List (String × α)
  | [], _ => []
  | (k, v) :: rest, key => if k = key then aerase rest key else (k, v) :: aerase rest key

/-- The keys of all entries are pairwise distinct; every map built through
`aset`/`aerase` from the empty map satisfies this. -/
def nodupKeys {α : Type} (m : List (String × α)) : Prop :=
  (m.map Prod.fst).Nodup

/-- A pending memo waiter as stored in `delegatorWaiters`/`validatorWaiters`
(txloggerListener.js): the expected memo, the Discord correlation context and
the registration time (`createdAt: Date.now()`).  The `validatorId` field of
validator waiters plays no role in registry logic and is omitted. -/
structure Waiter where
  expectedMemo : String
  discordId : String
  threadId : String
  createdAt : Int
  deriving DecidableEq, Repr

/-- One role's waiter map (`delegatorWaiters` or `validatorWaiters`). -/
abbrev Registry := List (String × Waiter)

/-- Embeds `registerDelegatorMemoWaiter` / `registerValidatorMemoWaiter`:
keys by `normAddr(address)`, overwrites any previous waiter, stamps
`createdAt` with the current time.  The returned string is the key captured
by the `cancelFn` closure `() => waiters.delete(key)`. -/
def registerMemoWaiter (reg : Registry) (address expectedMemo discordId threadId : String)
    (now : Int) : Registry × String :=
  let key := normAddr address
  (aset reg key ⟨expectedMemo, discordId, threadId, now⟩, key)

/-- Embeds the body of the closure returned by the register functions:
`() => waiters.delete(key)` — a bare delete of the captured key. -/
def cancelWaiter (reg : Registry) (key : String) : Registry :=
  aerase reg key

/-- A callback invocation observed while correlating one transaction:
either the waiter's `onSuccess` (with the sender, the raw memo text and the
registry key it fired for) or the role's wrong-memo notifier (with the
waiter's Discord context, its expected memo and the observed memo). -/
inductive CorrEvent where
  | success (key : String) (sender : String) (memoText : String)
  | wrongMemo (discordId threadId expected got : String)
  deriving DecidableEq, Repr

/-- Whether a correlation event is an `onSuccess` invocation. -/
def CorrEvent.isSuccess : CorrEvent → Bool
  | .success _ _ _ => true
  | .wrongMemo _ _ _ _ => false

/-- Result of running one role's waiter pass over a transaction: the updated
registry, the callback invocations, and whether an exception escaped the
pass (`onSuccess` throwing propagates out of its `try/finally`). -/
structure TxOutcome where
  reg : Registry
  events : List CorrEvent
  threw : Bool
  deriving DecidableEq, Repr

/-- Embeds the per-transaction waiter-correlation slice of `processBlock`
(txloggerListener.js, the `hasDelegatorWaiter`/`hasValidatorWaiter` blocks;
both roles run the identical logic on their own registry):

* `sender = none` mirrors a transaction whose sender could not be resolved
  (`!!(sender && waiters.has(key))` is then false);
* `memoText` is what `memoFromCLI` would return for this transaction
  (`none` = no memo; the CLI never yields an empty string);
* on a normalized-memo match, `onSuccess` is awaited inside
  `try { ... } finally { waiters.delete(key) }`, so the waiter is deleted
  even when the callback throws (`onSuccessThrows`), and the exception then
  escapes;
* on a present-but-different memo the wrong-memo notifier fires (when one is
  installed) and the waiter is kept;
* with no memo nothing fires and the waiter is kept.

Ambient per-block data (txHash, blockHash, timestampIso) is carried in the
real payloads but never inspected by this logic, so it is not modelled. -/
def processTxWaiters (reg : Registry) (sender : Option String) (memoText : Option String)
    (wrongMemoNotifierSet : Bool) (onSuccessThrows : Bool) : TxOutcome :=
  match sender with
  | none => { reg := reg, events := [], threw := false }
  | some s =>
    let key := normAddr s
    match alookup reg key with
    | none => { reg := reg, events := [], threw := false }
    | some w =>
      match memoText with
      | some m =>
        if normMemo m = normMemo w.expectedMemo then
          { reg := aerase reg key
            events := [.success key s m]
            threw := onSuccessThrows }
        else if wrongMemoNotifierSet then
          { reg := reg
            events := [.wrongMemo w.discordId w.threadId w.expectedMemo m]
            threw := false }
        else { reg := reg, events := [], threw := false }
      | none => { reg := reg, events := [], threw := false }

/-- One invocation of a role's TTL-expiry notifier during `pruneWaiters`:
the payload `{discordId, threadId, expected, minutes}` plus the registry key
the expired waiter occupied. -/
structure ExpireEvent where
  key : String
  discordId : String
  threadId : String
  expected : String
  minutes : Int
  deriving DecidableEq, Repr

/-- Embeds one role's loop of `pruneWaiters` (txloggerListener.js): every
waiter with `now - (w.createdAt || now) > WAITER_TTL_MS` is deleted and, when
an expiry notifier is installed, notified with its context (the notifier call
sits in a `try {} catch {}`, so its own failures are invisible); younger
waiters are kept untouched. -/
def pruneWaiters (now ttlMs ttlMin : Int) (notifierSet : Bool) :
    Registry → Registry × List ExpireEvent
  | [] => ([], [])
  | (k, w) :: rest =>
    let res := pruneWaiters now ttlMs ttlMin notifierSet rest
    let c := if w.createdAt = 0 then now else w.createdAt
    if now - c > ttlMs then
      (res.1,
       (if notifierSet then [⟨k, w.discordId, w.threadId, w.expectedMemo, ttlMin⟩] else [])
         ++ res.2)
    else ((k, w) :: res.1, res.2)

/-- State of the ingestion loop in `startTxLoggerListener`: the last fully
processed height and, for the embedding, the heights handed to
`processBlock` so far in order. -/
structure IngestState where
  lastHeight : Option Nat
  processed : List Nat
  deriving DecidableEq, Repr

/-- The heights backfilled for a gap between `lastH` and a delivered `h`:
`[lastH+1, ..., h-1]`, i.e. the loop `for (let hh = missingFrom; hh <= missingTo; hh++)`. -/
def backfillHeights (lastH h : Nat) : List Nat :=
  List.range' (lastH + 1) (h - (lastH + 1))

/-- Embeds one iteration of the `for await (const b of stream)` body in
`startTxLoggerListener`: when `lastHeight` is known and `h > lastHeight + 1`,
every missing height is processed in ascending order before `h`; then `h` is
processed and `lastHeight` becomes `h`. -/
def deliverBlock (st : IngestState) (h : Nat) : IngestState :=
  match st.lastHeight with
  | some lastH =>
    if h > lastH + 1 then
      { lastHeight := some h
        processed := st.processed ++ backfillHeights lastH h ++ [h] }
    else
      { lastHeight := some h, processed := st.processed ++ [h] }
  | none => { lastHeight := some h, processed := st.processed ++ [h] }

/-- Run the ingestion loop over a sequence of streamed block heights. -/
def runStream (st : IngestState) (blocks : List Nat) : IngestState :=
  blocks.foldl deliverBlock st

/-- Outcome of the i-th `concordium-client transaction status` invocation for
a fixed transaction hash: the process error or its stdout.  The fallback
readers and the retry helper are modelled as functions of this oracle. -/
def AttemptOracle : Type := Nat → Except String String

/-- Split stdout on `/\r?\n/`, as `String(stdout).split(/\r?\n/)`.
A carriage return not followed by a line feed stays inside its line. -/
def splitLinesAux : List Char → List Char → List String
  | acc, [] => [String.mk acc.reverse]
  | acc, '\r' :: '\n' :: rest => String.mk acc.reverse :: splitLinesAux [] rest
  | acc, '\n' :: rest => String.mk acc.reverse :: splitLinesAux [] rest
  | acc, c :: rest => splitLinesAux (c :: acc) rest

/-- The lines of a chunk of CLI stdout. -/
def splitLines (out : String) : List String :=
  splitLinesAux [] out.data

/-- Embeds the stdout parsing of `memoFromCLI` (txloggerListener.js): find
the line whose trim equals `Transfer memo:`, return the following line
trimmed, mapping an empty trim to `null` (`lines[idx + 1].trim() || null`).
The derived `hex` field of the JS result is the UTF-8 hex of this text and
carries no extra information, so only the text is modelled. -/
def parseMemoStdout (out : String) : Option String :=
  let lines := splitLines out
  match lines.findIdx? (fun l => String.mk (trimChars l.data) = "Transfer memo:") with
  | some i =>
    match lines.get? (i + 1) with
    | some l =>
      let t := String.mk (trimChars l.data)
      if t = "" then none else some t
    | none => none
  | none => none

/-- Embeds `memoFromCLI`: a single `execFile` invocation (attempt 0 of the
oracle); on process error it resolves `{ text: null, hex: null }` instead of
rejecting, otherwise it parses the stdout. -/
def memoFromCLI (oracle : AttemptOracle) : Option String :=
  match oracle 0 with
  | .error _ => none
  | .ok out => parseMemoStdout out

/-- Match a literal pattern at the head of the input, returning the rest. -/
def dropPat : List Char → List Char → Option (List Char)
  | [], l => some l
  | _ :: _, [] => none
  | p :: ps, c :: cs => if c = p then dropPat ps cs else none

/-- First occurrence of a literal pattern, returning what follows it. -/
def findPat (pat : List Char) : List Char → Option (List Char)
  | [] => dropPat pat []
  | c :: rest =>
    match dropPat pat (c :: rest) with
    | some r => some r
    | none => findPat pat rest

/-- Take characters up to the next single-quote (code point 39). -/
def takeUntilQuote : List Char → Option (List Char)
  | [] => none
  | c :: rest => if c.val = 39 then some [] else (takeUntilQuote rest).map (c :: ·)

/-- The literal `from account '` of the regex in `senderFromCLI`. -/
def senderPat : List Char :=
  "from account ".data ++ [Char.ofNat 39]

/-- Embeds the stdout parsing of `senderFromCLI`, the regex
`/from account '([^']+)'/` with its first capture (`m?.[1] || null`): the
text between the first `from account '` and the following quote, empty or
unterminated captures yielding `null`.  (Regex backtracking to a later
occurrence after an empty capture is not modelled; the CLI prints the
sender exactly once.) -/
def parseSenderStdout (out : String) : Option String :=
  match findPat senderPat out.data with
  | none => none
  | some rest =>
    match takeUntilQuote rest with
    | none => none
    | some captured => if captured = [] then none else some (String.mk captured)

/-- Embeds `senderFromCLI`: a single `execFile` invocation; on process error
it resolves `null` instead of rejecting, otherwise it parses the stdout. -/
def senderFromCLI (oracle : AttemptOracle) : Option String :=
  match oracle 0 with
  | .error _ => none
  | .ok out => parseSenderStdout out

/-- Embeds the loop of `retryAsync` (utils/retry.js) applied to an attempt
oracle: try attempts `i, i+1, ...` while failures remain, sleeping `delayMs`
before each re-attempt; with `remaining = 0` left, the last error is
rethrown.  The second component records the sleeps performed. -/
def retryFrom (f : AttemptOracle) (delayMs : Nat) : Nat → Nat → Except String String × List Nat
  | i, 0 => (f i, [])
  | i, n + 1 =>
    match f i with
    | .ok v => (.ok v, [])
    | .error _ =>
      let res := retryFrom f delayMs (i + 1) n
      (res.1, delayMs :: res.2)

/-- `retryAsync(fn)` with its default parameters `retries = 2`,
`delayMs = 600`: at most three attempts with a fixed 600 ms delay. -/
def retryAsyncDefaults (f : AttemptOracle) : Except String String × List Nat :=
  retryFrom f 600 0 2

/-- Modelled from the spec: the fallback memo reader as §5/§6 describe it,
`readTransactionMemoAndSender` with internal fixed-delay bounded retry
(2 retries, 600 ms) before surfacing failure, failure surfacing as a null
memo.  This definition exists only to be compared with `memoFromCLI`, which
is what the source actually runs. -/
def memoFromCLIRetrying (oracle : AttemptOracle) : Option String :=
  match (retryAsyncDefaults oracle).1 with
  | .error _ => none
  | .ok out => parseMemoStdout out

/-- A JavaScript number: `none` stands for `NaN` (`Number.isFinite` false),
`some q` for a finite value. -/
abbrev JsNum : Type := Option ℚ

/-- One row of the `validator_commissions` table, as read and written by
`flushCommissionBucket` (alerts.js): current stored rates and the
last-notified rates, all nullable. -/
structure CommRow where
  bakingRate : Option ℚ
  txFeeRate : Option ℚ
  lastNotifiedBaking : Option ℚ
  lastNotifiedTxFee : Option ℚ
  deriving DecidableEq, Repr

/-- A commission aggregation bucket for one validator and transaction:
`baking`/`txFee` are set only when the corresponding event carried a finite
number (`typeof x === "number"`). -/
structure CommBucket where
  baking : Option ℚ
  txFee : Option ℚ
  deriving DecidableEq, Repr

/-- The tolerance of `nearlyEqual` in `flushCommissionBucket`
(`eps = 1e-9`). -/
def commissionEps : ℚ := 1 / 1000000000

/-- Embeds `nearlyEqual(a, b)` of alerts.js: false when either side is null,
otherwise `Math.abs(a - b) < eps`. -/
def nearlyEqual (a b : Option ℚ) : Bool :=
  match a, b with
  | some x, some y => decide (|x - y| < commissionEps)
  | _, _ => false

/-- SQL `COALESCE(new, old)` on nullable rates. -/
def coalesce (a b : Option ℚ) : Option ℚ :=
  match a with
  | some x => some x
  | none => b

/-- The `commissionChanged` record handed to the dispatcher: the old/new
rate pairs computed from the last-notified values and the bucket
(`prev ?? new ?? 0` / `new ?? prev ?? 0`). -/
structure CommNotification where
  oldBaking : ℚ
  newBaking : ℚ
  oldTx : ℚ
  newTx : ℚ
  deriving DecidableEq, Repr

/-- Embeds `flushCommissionBucket` (alerts.js) for one validator: `db` is
that validator's `validator_commissions` row (if any), `recipientsNonempty`
whether the `verifications` table holds at least one delegator of the
validator.  Returns the updated row and the notification record sent to the
recipients, if any:

* a bucket with neither rate returns immediately;
* with no existing row, the row is inserted with last-notified equal to the
  reported rates and both present rates count as needing notification;
* with an existing row, a rate needs notification iff it is present and not
  `nearlyEqual` to the corresponding last-notified rate;
* when nothing needs notification only the stored rates are refreshed
  (`COALESCE`) and no record is produced;
* otherwise stored and last-notified rates are refreshed and, when
  recipients exist, a record with the old/new pairs is produced. -/
def flushCommissionBucket (db : Option CommRow) (b : CommBucket)
    (recipientsNonempty : Bool) : Option CommRow × Option CommNotification :=
  let baking := b.baking
  let txFee := b.txFee
  if baking.isNone && txFee.isNone then (db, none)
  else
    let st : CommRow × Option ℚ × Option ℚ × Bool × Bool :=
      match db with
      | none =>
        (⟨baking, txFee, baking, txFee⟩, baking, txFee, baking.isSome, txFee.isSome)
      | some row =>
        (row, row.lastNotifiedBaking, row.lastNotifiedTxFee,
         baking.isSome && !nearlyEqual baking row.lastNotifiedBaking,
         txFee.isSome && !nearlyEqual txFee row.lastNotifiedTxFee)
    match st with
    | (row, prevB, prevT, needB, needT) =>
      if !needB && !needT then
        (some { row with
                  bakingRate := coalesce baking row.bakingRate
                  txFeeRate := coalesce txFee row.txFeeRate },
         none)
      else
        let row' : CommRow :=
          { bakingRate := coalesce baking row.bakingRate
            txFeeRate := coalesce txFee row.txFeeRate
            lastNotifiedBaking := coalesce baking row.lastNotifiedBaking
            lastNotifiedTxFee := coalesce txFee row.lastNotifiedTxFee }
        if !recipientsNonempty then (some row', none)
        else
          (some row',
           some { oldBaking := (coalesce prevB (coalesce baking (some 0))).getD 0
                  newBaking := (coalesce baking (coalesce prevB (some 0))).getD 0
                  oldTx := (coalesce prevT (coalesce txFee (some 0))).getD 0
                  newTx := (coalesce txFee (coalesce prevT (some 0))).getD 0 })

/-- A rate reported in a bucket counts as changed when it is present and not
`nearlyEqual` to the corresponding last-notified rate (an absent row has no
last-notified rates). -/
def commissionDiffers (v lastNotified : Option ℚ) : Prop :=
  v.isSome = true ∧ nearlyEqual v lastNotified = false

/-- The last-notified baking rate visible in the database. -/
def lastNotifiedBakingOf : Option CommRow → Option ℚ
  | none => none
  | some r => r.lastNotifiedBaking

/-- The last-notified transaction-fee rate visible in the database. -/
def lastNotifiedTxFeeOf : Option CommRow → Option ℚ
  | none => none
  | some r => r.lastNotifiedTxFee

/-- A new-delegator aggregation bucket (alerts.js `newDelegatorBuckets`):
partial facets accumulated from `DelegationAdded`, `DelegationSetDelegationTarget`
and `DelegationStakeIncreased` events of one transaction/delegator.
`validatorId` is stored in the source as `String(poolId)` of a finite number
and converted back with `Number(...)` at flush; since `String(n)` is never
empty (so never falsy) and round-trips, the numeric value is modelled
directly.  `stakeMicro` holds a JS number, possibly `NaN`. -/
structure NDBucket where
  sawAdded : Bool
  delegatorId : Option String
  account : Option String
  validatorId : Option ℚ
  stakeMicro : Option JsNum
  txHash : Option String
  timerSet : Bool
  deriving DecidableEq, Repr

/-- The fresh bucket created by `getOrMakeNewDelegatorBucket`. -/
def emptyNDBucket : NDBucket :=
  { sawAdded := false, delegatorId := none, account := none, validatorId := none
    stakeMicro := none, txHash := none, timerSet := false }

/-- The bucket map keyed by `bucketKeyForNewDelegator`. -/
abbrev NDBuckets := List (String × NDBucket)

/-- Embeds `bucketKeyForNewDelegator`: `tx:<hash>` when a (truthy, i.e.
nonempty) tx hash is available, else `dg:<delegatorId>`. -/
def bucketKeyForNewDelegator (txHash : Option String) (delegatorId : String) : String :=
  match txHash with
  | some h => "tx:" ++ h
  | none => "dg:" ++ delegatorId

/-- Embeds `getOrMakeNewDelegatorBucket`: return the existing bucket or
insert a fresh one. -/
def getOrMakeNewDelegatorBucket (m : NDBuckets) (key : String) : NDBucket × NDBuckets :=
  match alookup m key with
  | some b => (b, m)
  | none => (emptyNDBucket, aset m key emptyNDBucket)

/-- Embeds `if (!b.timer) { b.timer = setTimeout(...) }`: the first insertion
arms the flush timer; later insertions leave it alone. -/
def armTimer (b : NDBucket) : NDBucket :=
  if b.timerSet then b else { b with timerSet := true }

/-- Embeds `handleNewDelegator_DelegationAdded`: records the added facet and
the account, refreshes the tx hash. -/
def handleNewDelegator_DelegationAdded (m : NDBuckets) (delegatorId account : String)
    (txHash : Option String) : NDBuckets :=
  let key := bucketKeyForNewDelegator txHash delegatorId
  let got := getOrMakeNewDelegatorBucket m key
  let b := { got.1 with
               sawAdded := true
               delegatorId := some delegatorId
               account := some account
               txHash := match txHash with | some h => some h | none => got.1.txHash }
  aset got.2 key (armTimer b)

/-- Embeds `handleNewDelegator_TargetSet`: records the target pool facet. -/
def handleNewDelegator_TargetSet (m : NDBuckets) (delegatorId : String) (bakerId : ℚ)
    (txHash : Option String) : NDBuckets :=
  let key := bucketKeyForNewDelegator txHash delegatorId
  let got := getOrMakeNewDelegatorBucket m key
  let b := { got.1 with
               delegatorId := some delegatorId
               validatorId := some bakerId
               txHash := match txHash with | some h => some h | none => got.1.txHash }
  aset got.2 key (armTimer b)

/-- Embeds `handleNewDelegator_StakeIncreased`: records the stake facet
(`b.stakeMicro = Number(newStakeMicro)`, possibly `NaN`). -/
def handleNewDelegator_StakeIncreased (m : NDBuckets) (delegatorId : String)
    (newStakeMicro : JsNum) (txHash : Option String) : NDBuckets :=
  let key := bucketKeyForNewDelegator txHash delegatorId
  let got := getOrMakeNewDelegatorBucket m key
  let b := { got.1 with
               delegatorId := some delegatorId
               stakeMicro := some newStakeMicro
               txHash := match txHash with | some h => some h | none => got.1.txHash }
  aset got.2 key (armTimer b)

/-- `Number(b.stakeMicro)` for the nullable stake field: `Number(null) = 0`,
a stored number converts to itself (`NaN` stays `NaN`). -/
def jsNumOfStakeField : Option JsNum → JsNum
  | none => some 0
  | some v => v

/-- `!b.account` for the nullable account field: falsy when `null` or the
empty string. -/
def accountTruthy : Option String → Bool
  | none => false
  | some s => !(s = "")

/-- The `newDelegatorJoined` record handed to the dispatcher by a flush. -/
structure NDNotification where
  poolId : ℚ
  account : String
  stakeMicro : ℚ
  txHash : Option String
  deriving DecidableEq, Repr

/-- Embeds `flushNewDelegatorBucket` (alerts.js): pop the bucket (a second
flush of the same key finds nothing); drop it silently unless `sawAdded`,
a truthy `validatorId` and `account` and `Number.isFinite(Number(b.stakeMicro))`
all hold — note `Number(null) = 0`, so a bucket that never saw a stake event
still passes with stake 0; `ownersNonempty` says whether the pool's owner
lookup in `verifications` returns anyone to notify. -/
def flushNewDelegatorBucket (m : NDBuckets) (key : String) (ownersNonempty : Bool) :
    NDBuckets × Option NDNotification :=
  match alookup m key with
  | none => (m, none)
  | some b =>
    let m' := aerase m key
    match b.validatorId, jsNumOfStakeField b.stakeMicro, b.account with
    | some poolId, some stake, some acct =>
      if !b.sawAdded || acct = "" then (m', none)
      else if !ownersNonempty then (m', none)
      else (m', some { poolId := poolId, account := acct, stakeMicro := stake, txHash := b.txHash })
    | _, _, _ => (m', none)

/-- An attempt history whose first CLI invocation fails and whose later
invocations would return a memo: distinguishes a single-attempt reader from
a retrying one. -/
def cexOracle : AttemptOracle := fun i =>
  match i with
  | 0 => Except.error "ECONNREFUSED"
  | _ => Except.ok "Transfer memo:\n12345\n"

/-- An attempt history that always fails. -/
def failOracle : AttemptOracle := fun _ => Except.error "ECONNREFUSED"

/-! Basic facts about the association-list model of JS `Map`. -/

theorem alookup_aset_self {α : Type} (m : List (String × α)) (k : String) (v : α) :
    alookup (aset m k v) k = some v := by
  induction m with
  | nil => simp [aset, alookup]
  | cons p rest ih =>
    obtain ⟨k2, v2⟩ := p
    by_cases hk : k2 = k
    · simp [aset, alookup, hk]
    · simp [aset, alookup, hk, ih]

theorem alookup_aset_ne {α : Type} (m : List (String × α)) (k k2 : String) (v : α)
    (h : k2 ≠ k) : alookup (aset m k v) k2 = alookup m k2 := by
  induction m with
  | nil => simp [aset, alookup, Ne.symm h]
  | cons p rest ih =>
    obtain ⟨k3, v3⟩ := p
    by_cases hk : k3 = k
    · subst hk
      simp [aset, alookup, Ne.symm h]
    · by_cases hq : k3 = k2
      · subst hq
        simp [aset, alookup, hk]
      · simp [aset, alookup, hk, hq, ih]

theorem alookup_aerase_self {α : Type} (m : List (String × α)) (k : String) :
    alookup (aerase m k) k = none := by
  induction m with
  | nil => simp [aerase, alookup]
  | cons p rest ih =>
    obtain ⟨k2, v2⟩ := p
    by_cases hk : k2 = k
    · simpa [aerase, hk] using ih
    · simpa [aerase, alookup, hk] using ih

theorem alookup_aerase_ne {α : Type} (m : List (String × α)) (k k2 : String)
    (h : k2 ≠ k) : alookup (aerase m k) k2 = alookup m k2 := by
  induction m with
  | nil => simp [aerase]
  | cons p rest ih =>
    obtain ⟨k3, v3⟩ := p
    by_cases hk : k3 = k
    · subst hk
      simp [aerase, alookup, Ne.symm h, ih]
    · by_cases hq : k3 = k2
      · subst hq
        simp [aerase, alookup, hk]
      · simp [aerase, alookup, hk, hq, ih]

theorem aerase_of_absent {α : Type} (m : List (String × α)) (k : String)
    (h : alookup m k = none) : aerase m k = m := by
  induction m with
  | nil => simp [aerase]
  | cons p rest ih =>
    obtain ⟨k2, v2⟩ := p
    by_cases hk : k2 = k
    · simp [alookup, hk] at h
    · simp only [alookup, hk, if_false] at h
      simp [aerase, hk, ih h]

theorem not_mem_keys_of_alookup_none {α : Type} (m : List (String × α)) (k : String)
    (h : alookup m k = none) : k ∉ m.map Prod.fst := by
  induction m with
  | nil => simp
  | cons p rest ih =>
    obtain ⟨k2, v2⟩ := p
    by_cases hk : k2 = k
    · simp [alookup, hk] at h
    · simp only [alookup, hk, if_false] at h
      intro hmem
      rcases List.mem_cons.mp hmem with hh | hh
      · exact hk hh.symm
      · exact ih h hh

theorem alookup_none_of_not_mem_keys {α : Type} (m : List (String × α)) (k : String)
    (h : k ∉ m.map Prod.fst) : alookup m k = none := by
  induction m with
  | nil => rfl
  | cons p rest ih =>
    obtain ⟨k2, v2⟩ := p
    simp only [List.map_cons, List.mem_cons] at h
    push_neg at h
    simp only [alookup, Ne.symm h.1, if_false]
    exact ih h.2

theorem keys_aset_of_contains {α : Type} (m : List (String × α)) (k : String) (v : α)
    (h : acontains m k = true) : (aset m k v).map Prod.fst = m.map Prod.fst := by
  induction m with
  | nil => simp [acontains, alookup] at h
  | cons p rest ih =>
    obtain ⟨k2, v2⟩ := p
    by_cases hk : k2 = k
    · simp [aset, hk]
    · have hrest : acontains rest k = true := by
        simpa [acontains, alookup, hk] using h
      simp [aset, hk, ih hrest]

theorem keys_aset_of_absent {α : Type} (m : List (String × α)) (k : String) (v : α)
    (h : alookup m k = none) : (aset m k v).map Prod.fst = m.map Prod.fst ++ [k] := by
  induction m with
  | nil => simp [aset]
  | cons p rest ih =>
    obtain ⟨k2, v2⟩ := p
    by_cases hk : k2 = k
    · simp [alookup, hk] at h
    · simp only [alookup, hk, if_false] at h
      simp [aset, hk, ih h]

theorem nodupKeys_aset {α : Type} (m : List (String × α)) (k : String) (v : α)
    (h : nodupKeys m) : nodupKeys (aset m k v) := by
  unfold nodupKeys at h ⊢
  by_cases hc : acontains m k = true
  · rw [keys_aset_of_contains m k v hc]
    exact h
  · have hnone : alookup m k = none := by
      cases hcase : alookup m k with
      | none => rfl
      | some v2 => exact absurd (by simp [acontains, hcase]) hc
    rw [keys_aset_of_absent m k v hnone]
    have hnm := not_mem_keys_of_alookup_none m k hnone
    simp [List.nodup_append, h, hnm]

/-- C2: delivering a transaction from a waiter's address whose memo
normalizes equal to the expected memo invokes that waiter's `onSuccess`
exactly once and removes the waiter, so a second otherwise-identical
transaction processed afterwards invokes nothing and changes nothing. -/
theorem C2_at_most_one_correlation (reg : Registry) (s m : String) (w : Waiter)
    (hw : alookup reg (normAddr s) = some w)
    (hm : normMemo m = normMemo w.expectedMemo)
    (ns th ns2 th2 : Bool) :
    (processTxWaiters reg (some s) (some m) ns th).events
      = [CorrEvent.success (normAddr s) s m] ∧
    alookup (processTxWaiters reg (some s) (some m) ns th).reg (normAddr s) = none ∧
    (processTxWaiters (processTxWaiters reg (some s) (some m) ns th).reg
        (some s) (some m) ns2 th2).events = [] ∧
    (processTxWaiters (processTxWaiters reg (some s) (some m) ns th).reg
        (some s) (some m) ns2 th2).reg
      = (processTxWaiters reg (some s) (some m) ns th).reg := by
  simp [processTxWaiters, hw, hm, alookup_aerase_self]

theorem C2_at_most_one_correlation_witness :
    (processTxWaiters [("addr1", ⟨"12345", "d1", "t1", 7⟩)]
        (some "addr1") (some "12345") true false).events
      = [CorrEvent.success (normAddr "addr1") "addr1" "12345"] ∧
    (processTxWaiters (processTxWaiters [("addr1", ⟨"12345", "d1", "t1", 7⟩)]
        (some "addr1") (some "12345") true false).reg
        (some "addr1") (some "12345") true false).events = [] := by
  have h := C2_at_most_one_correlation [("addr1", ⟨"12345", "d1", "t1", 7⟩)]
    "addr1" "12345" ⟨"12345", "d1", "t1", 7⟩ (by decide) (by decide) true false true false
  exact ⟨h.1, h.2.2.1⟩

/-- C3: a transaction from a waiter's address carrying a present memo that
normalizes unequal to the expected one invokes the wrong-memo notifier with
the expected and observed memos and leaves the waiter registered, so a later
correct-memo transaction still fires `onSuccess`; a transaction with no memo
fires nothing and leaves the registry unchanged. -/
theorem C3_wrong_memo_keeps_waiter (reg : Registry) (s m : String) (w : Waiter)
    (hw : alookup reg (normAddr s) = some w)
    (hm : ¬ normMemo m = normMemo w.expectedMemo) (th : Bool) :
    (processTxWaiters reg (some s) (some m) true th).reg = reg ∧
    (processTxWaiters reg (some s) (some m) true th).events
      = [CorrEvent.wrongMemo w.discordId w.threadId w.expectedMemo m] ∧
    (∀ m2 ns2 th2, normMemo m2 = normMemo w.expectedMemo →
      (processTxWaiters (processTxWaiters reg (some s) (some m) true th).reg
          (some s) (some m2) ns2 th2).events
        = [CorrEvent.success (normAddr s) s m2]) ∧
    (∀ ns3 th3, processTxWaiters reg (some s) none ns3 th3
        = { reg := reg, events := [], threw := false }) := by
  refine ⟨?_, ?_, ?_, ?_⟩
  · simp [processTxWaiters, hw, hm]
  · simp [processTxWaiters, hw, hm]
  · intro m2 ns2 th2 hm2
    simp [processTxWaiters, hw, hm, hm2]
  · intro ns3 th3
    simp [processTxWaiters, hw]

theorem C3_wrong_memo_keeps_waiter_witness :
    (processTxWaiters [("addr1", ⟨"12345", "d1", "t1", 7⟩)]
        (some "addr1") (some "99999") true false).events
      = [CorrEvent.wrongMemo "d1" "t1" "12345" "99999"] ∧
    (processTxWaiters (processTxWaiters [("addr1", ⟨"12345", "d1", "t1", 7⟩)]
        (some "addr1") (some "99999") true false).reg
        (some "addr1") (some "12345") true false).events
      = [CorrEvent.success (normAddr "addr1") "addr1" "12345"] := by
  have h := C3_wrong_memo_keeps_waiter [("addr1", ⟨"12345", "d1", "t1", 7⟩)]
    "addr1" "99999" ⟨"12345", "d1", "t1", 7⟩ (by decide) (by decide) false
  exact ⟨h.2.1, h.2.2.1 "12345" true false (by decide)⟩

/-- C7: a second registration for the same (role, normalized address) key
replaces the first (last-writer-wins), the registry keeps at most one live
waiter per key, and a transaction whose memo matches only the first waiter's
expected memo fires no `onSuccess`. -/
theorem C7_overwrite_semantics (reg : Registry)
    (addr e1 e2 d1 t1 d2 t2 m : String) (now1 now2 : Int)
    (hne : ¬ normMemo e1 = normMemo e2)
    (hm : normMemo m = normMemo e1) (ns th : Bool) :
    alookup (registerMemoWaiter (registerMemoWaiter reg addr e1 d1 t1 now1).1
        addr e2 d2 t2 now2).1 (normAddr addr)
      = some ⟨e2, d2, t2, now2⟩ ∧
    (nodupKeys reg → nodupKeys (registerMemoWaiter (registerMemoWaiter reg addr e1 d1 t1 now1).1
        addr e2 d2 t2 now2).1) ∧
    ((processTxWaiters (registerMemoWaiter (registerMemoWaiter reg addr e1 d1 t1 now1).1
        addr e2 d2 t2 now2).1 (some addr) (some m) ns th).events.all
      (fun e => !e.isSuccess)) = true := by
  have hlook : alookup (registerMemoWaiter (registerMemoWaiter reg addr e1 d1 t1 now1).1
      addr e2 d2 t2 now2).1 (normAddr addr) = some ⟨e2, d2, t2, now2⟩ := by
    simp [registerMemoWaiter, alookup_aset_self]
  refine ⟨hlook, ?_, ?_⟩
  · intro hnd
    exact nodupKeys_aset _ _ _ (nodupKeys_aset _ _ _ hnd)
  · have hm2 : ¬ normMemo m = normMemo e2 := by
      rw [hm]; exact hne
    cases ns <;> simp [processTxWaiters, hlook, hm2, CorrEvent.isSuccess]

theorem C7_overwrite_semantics_witness :
    alookup (registerMemoWaiter (registerMemoWaiter [] "addr1" "11111" "d1" "t1" 1).1
        "addr1" "22222" "d2" "t2" 2).1 (normAddr "addr1")
      = some ⟨"22222", "d2", "t2", 2⟩ ∧
    ((processTxWaiters (registerMemoWaiter (registerMemoWaiter [] "addr1" "11111" "d1" "t1" 1).1
        "addr1" "22222" "d2" "t2" 2).1 (some "addr1") (some "11111") true false).events.all
      (fun e => !e.isSuccess)) = true := by
  have h := C7_overwrite_semantics [] "addr1" "11111" "22222" "d1" "t1" "d2" "t2" "11111"
    1 2 (by decide) (by decide) true false
  exact ⟨h.1, h.2.2⟩

/-- C8 counterexample: the claim says a waiter's `cancelFn`, called after the
waiter was replaced by a later registration for the same key, does not remove
the currently registered waiter.  In the source the closure is a bare
`() => waiters.delete(key)`: after re-registering for the same address, the
first registration's cancel removes the second waiter. -/
theorem C8_cancel_after_replacement_removes_current :
    alookup (registerMemoWaiter (registerMemoWaiter [] "addr1" "11111" "d1" "t1" 1).1
        "addr1" "22222" "d2" "t2" 2).1 (normAddr "addr1")
      = some ⟨"22222", "d2", "t2", 2⟩ ∧
    alookup (cancelWaiter
        (registerMemoWaiter (registerMemoWaiter [] "addr1" "11111" "d1" "t1" 1).1
          "addr1" "22222" "d2" "t2" 2).1
        (registerMemoWaiter [] "addr1" "11111" "d1" "t1" 1).2)
      (normAddr "addr1") = none := by
  decide

/-- C8 (amended): the `cancelFn` returned by a registration deletes whatever
waiter currently occupies the captured (role, normalizedAddress) key: it is
idempotent, a no-op when the key is empty (e.g. after the waiter fired or
expired with no re-registration), and touches no other key — but after a
later registration replaced the waiter it removes that replacement. -/
theorem C8_cancel_deletes_by_key (reg : Registry) (key other : String)
    (hne : other ≠ key) :
    alookup (cancelWaiter reg key) key = none ∧
    cancelWaiter (cancelWaiter reg key) key = cancelWaiter reg key ∧
    (alookup reg key = none → cancelWaiter reg key = reg) ∧
    alookup (cancelWaiter reg key) other = alookup reg other := by
  refine ⟨alookup_aerase_self reg key, ?_, ?_, ?_⟩
  · exact aerase_of_absent _ key (alookup_aerase_self reg key)
  · intro h
    exact aerase_of_absent reg key h
  · exact alookup_aerase_ne reg key other hne

theorem C8_cancel_deletes_by_key_witness :
    alookup (cancelWaiter [("addr1", ⟨"11111", "d1", "t1", 1⟩)] "addr1") "addr1" = none ∧
    alookup (cancelWaiter [("addr1", ⟨"11111", "d1", "t1", 1⟩)] "addr1") "addr2"
      = alookup [("addr1", (⟨"11111", "d1", "t1", 1⟩ : Waiter))] "addr2" := by
  have h := C8_cancel_deletes_by_key [("addr1", ⟨"11111", "d1", "t1", 1⟩)]
    "addr1" "addr2" (by decide)
  exact ⟨h.1, h.2.2.2⟩

/-- C10: on a successful memo match the waiter is deleted in the `finally`
block, so even when `onSuccess` throws the waiter is gone (and the exception
escapes the pass), and a later identical transaction fires nothing. -/
theorem C10_success_removes_waiter_on_throw (reg : Registry) (s m : String) (w : Waiter)
    (hw : alookup reg (normAddr s) = some w)
    (hm : normMemo m = normMemo w.expectedMemo) (ns ns2 th2 : Bool) :
    (processTxWaiters reg (some s) (some m) ns true).threw = true ∧
    alookup (processTxWaiters reg (some s) (some m) ns true).reg (normAddr s) = none ∧
    (processTxWaiters reg (some s) (some m) ns true).events
      = [CorrEvent.success (normAddr s) s m] ∧
    (processTxWaiters (processTxWaiters reg (some s) (some m) ns true).reg
        (some s) (some m) ns2 th2).events = [] := by
  simp [processTxWaiters, hw, hm, alookup_aerase_self]

theorem C10_success_removes_waiter_on_throw_witness :
    (processTxWaiters [("addr1", ⟨"12345", "d1", "t1", 7⟩)]
        (some "addr1") (some "12345") true true).threw = true ∧
    alookup (processTxWaiters [("addr1", ⟨"12345", "d1", "t1", 7⟩)]
        (some "addr1") (some "12345") true true).reg (normAddr "addr1") = none := by
  have h := C10_success_removes_waiter_on_throw [("addr1", ⟨"12345", "d1", "t1", 7⟩)]
    "addr1" "12345" ⟨"12345", "d1", "t1", 7⟩ (by decide) (by decide) true true false
  exact ⟨h.1, h.2.1⟩

theorem prune_absent (now ttlMs ttlMin : Int) (nsb : Bool) (reg : Registry) (k : String)
    (h : alookup reg k = none) :
    alookup (pruneWaiters now ttlMs ttlMin nsb reg).1 k = none ∧
    (pruneWaiters now ttlMs ttlMin nsb reg).2.filter (fun e => e.key == k) = [] := by
  induction reg with
  | nil => simp [pruneWaiters, alookup]
  | cons p rest ih =>
    obtain ⟨k2, w2⟩ := p
    have hk : ¬ k2 = k := by
      intro hh
      subst hh
      simp [alookup] at h
    simp only [alookup, hk, if_false] at h
    obtain ⟨ih1, ih2⟩ := ih h
    by_cases hexp : now - (if w2.createdAt = 0 then now else w2.createdAt) > ttlMs
    · cases nsb <;> simp [pruneWaiters, hexp, ih1, ih2, hk, alookup]
    · simp [pruneWaiters, hexp, ih1, ih2, hk, alookup]

/-- C6: a prune pass removes every waiter strictly older than the TTL,
invoking the expiry notifier exactly once with that waiter's context, after
which no transaction can match it; younger waiters are untouched. -/
theorem C6_prune_expiry (reg : Registry) (k : String) (w : Waiter)
    (now ttlMs ttlMin : Int)
    (hnd : nodupKeys reg) (hw : alookup reg k = some w) (hc : w.createdAt ≠ 0) :
    (now - w.createdAt > ttlMs →
      alookup (pruneWaiters now ttlMs ttlMin true reg).1 k = none ∧
      (pruneWaiters now ttlMs ttlMin true reg).2.filter (fun e => e.key == k)
        = [⟨k, w.discordId, w.threadId, w.expectedMemo, ttlMin⟩] ∧
      (∀ s mo ns th, normAddr s = k →
        processTxWaiters (pruneWaiters now ttlMs ttlMin true reg).1 (some s) mo ns th
          = { reg := (pruneWaiters now ttlMs ttlMin true reg).1
              events := [], threw := false })) ∧
    (now - w.createdAt ≤ ttlMs →
      alookup (pruneWaiters now ttlMs ttlMin true reg).1 k = some w) := by
  induction reg with
  | nil => simp [alookup] at hw
  | cons p rest ih =>
    obtain ⟨k2, w2⟩ := p
    have hndparts := List.nodup_cons.mp hnd
    by_cases hk : k2 = k
    · subst hk
      have hw2 : w2 = w := by simpa [alookup] using hw
      subst hw2
      have habs : alookup rest k2 = none :=
        alookup_none_of_not_mem_keys rest k2 hndparts.1
      obtain ⟨p1, p2⟩ := prune_absent now ttlMs ttlMin true rest k2 habs
      constructor
      · intro hexp
        have hcond : now - (if w2.createdAt = 0 then now else w2.createdAt) > ttlMs := by
          rw [if_neg hc]
          exact hexp
        refine ⟨?_, ?_, ?_⟩
        · simp [pruneWaiters, hcond, p1]
        · simp [pruneWaiters, hcond, p2]
        · intro s mo ns th hs
          have hnone : alookup (pruneWaiters now ttlMs ttlMin true ((k2, w2) :: rest)).1
              (normAddr s) = none := by
            rw [hs]
            simp [pruneWaiters, hcond, p1]
          simp [processTxWaiters, hnone]
      · intro hle
        have hcond : ¬ (now - (if w2.createdAt = 0 then now else w2.createdAt) > ttlMs) := by
          rw [if_neg hc]
          omega
        simp [pruneWaiters, hcond, alookup]
    · have hwrest : alookup rest k = some w := by
        simpa [alookup, hk] using hw
      obtain ⟨ihexp, ihle⟩ := ih hndparts.2 hwrest
      by_cases hexp2 : now - (if w2.createdAt = 0 then now else w2.createdAt) > ttlMs
      · constructor
        · intro hexp
          obtain ⟨q1, q2, q3⟩ := ihexp hexp
          refine ⟨?_, ?_, ?_⟩
          · simp [pruneWaiters, hexp2, q1]
          · simp [pruneWaiters, hexp2, hk, q2]
          · intro s mo ns th hs
            have := q3 s mo ns th hs
            simp only [pruneWaiters, hexp2, if_true] at this ⊢
            simpa using this
        · intro hle
          simp [pruneWaiters, hexp2, ihle hle]
      · constructor
        · intro hexp
          obtain ⟨q1, q2, q3⟩ := ihexp hexp
          refine ⟨?_, ?_, ?_⟩
          · simp [pruneWaiters, hexp2, alookup, hk, q1]
          · simp [pruneWaiters, hexp2, q2]
          · intro s mo ns th hs
            have hnone : alookup ((k2, w2) :: (pruneWaiters now ttlMs ttlMin true rest).1)
                (normAddr s) = none := by
              rw [hs]
              simp [alookup, hk, q1]
            simp [pruneWaiters, hexp2, processTxWaiters, hnone]
        · intro hle
          simp [pruneWaiters, hexp2, alookup, hk, ihle hle]

theorem C6_prune_expiry_witness :
    alookup (pruneWaiters 100 10 1 true [("addr1", ⟨"12345", "d1", "t1", 1⟩)]).1 "addr1"
      = none ∧
    (pruneWaiters 100 10 1 true [("addr1", ⟨"12345", "d1", "t1", 1⟩)]).2.filter
        (fun e => e.key == "addr1")
      = [⟨"addr1", "d1", "t1", "12345", 1⟩] := by
  have h := C6_prune_expiry [("addr1", ⟨"12345", "d1", "t1", 1⟩)] "addr1"
    ⟨"12345", "d1", "t1", 1⟩ 100 10 1 (by simp [nodupKeys]) (by decide) (by decide)
  obtain ⟨h1, h2, h3⟩ := h.1 (by decide)
  exact ⟨h1, h2⟩

theorem range'_mem_iff : ∀ (n a x : ℕ), x ∈ List.range' a n ↔ a ≤ x ∧ x < a + n := by
  intro n
  induction n with
  | zero =>
    intro a x
    simp [List.range']
  | succ n ih =>
    intro a x
    simp only [List.range', List.mem_cons, ih]
    omega

theorem range'_pairwise_lt : ∀ (n a : ℕ), (List.range' a n).Pairwise (· < ·) := by
  intro n
  induction n with
  | zero => intro a; simp [List.range']
  | succ n ih =>
    intro a
    simp only [List.range']
    refine List.Pairwise.cons ?_ (ih (a + 1))
    intro x hx
    have := (range'_mem_iff n (a + 1) x).mp hx
    omega

/-- C1: when the last processed height is known and a streamed block arrives
with a gap above it, the ingestion loop processes exactly the missing heights
`[lastHeight+1, h-1]`, in strictly ascending order, before processing `h`;
in particular blocks streamed at heights 5 then 9 from no prior state are
processed as 5,6,7,8,9. -/
theorem C1_gap_recovery (st : IngestState) (lastH h : Nat)
    (hl : st.lastHeight = some lastH) (hg : h > lastH + 1) :
    (deliverBlock st h).processed
      = st.processed ++ backfillHeights lastH h ++ [h] ∧
    (deliverBlock st h).lastHeight = some h ∧
    (∀ x, x ∈ backfillHeights lastH h ↔ lastH + 1 ≤ x ∧ x < h) ∧
    (backfillHeights lastH h ++ [h]).Pairwise (· < ·) ∧
    runStream ⟨none, []⟩ [5, 9] = ⟨some 9, [5, 6, 7, 8, 9]⟩ := by
  refine ⟨?_, ?_, ?_, ?_, ?_⟩
  · simp [deliverBlock, hl, hg]
  · simp [deliverBlock, hl, hg]
  · intro x
    unfold backfillHeights
    rw [range'_mem_iff]
    omega
  · unfold backfillHeights
    rw [List.pairwise_append]
    refine ⟨range'_pairwise_lt _ _, by simp, ?_⟩
    intro x hx y hy
    have hb := (range'_mem_iff _ _ _).mp hx
    simp only [List.mem_singleton] at hy
    omega
  · decide

theorem C1_gap_recovery_witness :
    (deliverBlock ⟨some 5, [5]⟩ 9).processed = [5] ++ backfillHeights 5 9 ++ [9] ∧
    runStream ⟨none, []⟩ [5, 9] = ⟨some 9, [5, 6, 7, 8, 9]⟩ := by
  have h := C1_gap_recovery ⟨some 5, [5]⟩ 5 9 rfl (by decide)
  exact ⟨h.1, h.2.2.2.2⟩

theorem retryFrom_congr (f g : AttemptOracle) (d : Nat) :
    ∀ (n i : Nat), (∀ j, i ≤ j → j ≤ i + n → f j = g j) →
      retryFrom f d i n = retryFrom g d i n := by
  intro n
  induction n with
  | zero =>
    intro i h
    simp [retryFrom, h i le_rfl (by omega)]
  | succ n ih =>
    intro i h
    have h0 : f i = g i := h i le_rfl (by omega)
    cases hg : g i with
    | ok v => simp [retryFrom, h0, hg]
    | error e =>
      simp [retryFrom, h0, hg,
        ih (i + 1) (fun j hj1 hj2 => h j (by omega) (by omega))]

theorem retryFrom_delays (f : AttemptOracle) (d : Nat) :
    ∀ (n i : Nat), (retryFrom f d i n).2.length ≤ n ∧
      ∀ x ∈ (retryFrom f d i n).2, x = d := by
  intro n
  induction n with
  | zero => intro i; simp [retryFrom]
  | succ n ih =>
    intro i
    cases hf : f i with
    | ok v => simp [retryFrom, hf]
    | error e =>
      obtain ⟨l1, l2⟩ := ih (i + 1)
      constructor
      · simp only [retryFrom, hf]
        simpa using Nat.succ_le_succ l1
      · intro x hx
        simp only [retryFrom, hf, List.mem_cons] at hx
        rcases hx with hx | hx
        · exact hx
        · exact l2 x hx

/-- C9 counterexample: the claim says the fallback memo/sender reads
internally retry (2 retries, 600 ms, up to 3 attempts) before giving up.
`memoFromCLI` makes a single attempt: on an attempt history whose first call
fails and whose second call would return the memo, it yields `null`, while
the spec-modelled retrying reader yields the memo. -/
theorem C9_no_internal_retry_counterexample :
    memoFromCLI cexOracle = none ∧ memoFromCLIRetrying cexOracle = some "12345" := by
  constructor
  · rfl
  · rfl

/-- C9 (amended): the fallback memo/sender reads make exactly one CLI
attempt (their result depends only on attempt 0) and surface failure as null
sender/memo rather than a thrown error; the repository's `retryAsync` helper
with its defaults performs at most 3 attempts (2 retries) with a fixed
600 ms delay, but the fallback readers do not use it. -/
theorem C9_fallback_single_attempt :
    (∀ o o2 : AttemptOracle, o 0 = o2 0 →
        memoFromCLI o = memoFromCLI o2 ∧ senderFromCLI o = senderFromCLI o2) ∧
    (∀ (o : AttemptOracle) (e : String), o 0 = Except.error e →
        memoFromCLI o = none ∧ senderFromCLI o = none) ∧
    (∀ f g : AttemptOracle, (∀ j, j ≤ 2 → f j = g j) →
        retryAsyncDefaults f = retryAsyncDefaults g) ∧
    (∀ f : AttemptOracle, (retryAsyncDefaults f).2.length ≤ 2 ∧
        ∀ x ∈ (retryAsyncDefaults f).2, x = 600) := by
  refine ⟨?_, ?_, ?_, ?_⟩
  · intro o o2 h
    constructor <;> simp [memoFromCLI, senderFromCLI, h]
  · intro o e h
    constructor <;> simp [memoFromCLI, senderFromCLI, h]
  · intro f g h
    unfold retryAsyncDefaults
    exact retryFrom_congr f g 600 2 0 (fun j hj1 hj2 => h j (by omega))
  · intro f
    unfold retryAsyncDefaults
    exact retryFrom_delays f 600 2 0

theorem C9_fallback_single_attempt_witness :
    memoFromCLI failOracle = none ∧ senderFromCLI failOracle = none :=
  C9_fallback_single_attempt.2.1 failOracle "ECONNREFUSED" rfl

theorem nearlyEqual_refl (r : ℚ) : nearlyEqual (some r) (some r) = true := by
  simp only [nearlyEqual, sub_self, abs_zero, decide_eq_true_eq, commissionEps]
  norm_num

/-- C5: a commission-bucket flush emits a "commission changed" record iff at
least one reported rate is present and differs (beyond the 1e-9 tolerance)
from the corresponding last-notified rate; re-reporting the identical baking
rate emits nothing, while a change in only the transaction-fee rate emits a
record carrying both rates, the baking one unchanged. -/
theorem C5_commission_dedup :
    (∀ (db : Option CommRow) (b : CommBucket),
        ((flushCommissionBucket db b true).2.isSome = true) ↔
          (commissionDiffers b.baking (lastNotifiedBakingOf db) ∨
           commissionDiffers b.txFee (lastNotifiedTxFeeOf db))) ∧
    (∀ (row : CommRow) (r : ℚ), row.lastNotifiedBaking = some r →
        (flushCommissionBucket (some row) ⟨some r, none⟩ true).2 = none) ∧
    (∀ (row : CommRow) (b0 t0 t : ℚ),
        row.lastNotifiedBaking = some b0 → row.lastNotifiedTxFee = some t0 →
        nearlyEqual (some t) (some t0) = false →
        (flushCommissionBucket (some row) ⟨none, some t⟩ true).2
          = some ⟨b0, b0, t0, t⟩) := by
  refine ⟨?_, ?_, ?_⟩
  · intro db b
    cases db with
    | none =>
      cases hb : b.baking with
      | none =>
        cases ht : b.txFee with
        | none =>
          simp [flushCommissionBucket, hb, ht, commissionDiffers,
            lastNotifiedBakingOf, lastNotifiedTxFeeOf]
        | some y =>
          simp [flushCommissionBucket, hb, ht, commissionDiffers,
            lastNotifiedBakingOf, lastNotifiedTxFeeOf, nearlyEqual]
      | some x =>
        cases ht : b.txFee with
        | none =>
          simp [flushCommissionBucket, hb, ht, commissionDiffers,
            lastNotifiedBakingOf, lastNotifiedTxFeeOf, nearlyEqual]
        | some y =>
          simp [flushCommissionBucket, hb, ht, commissionDiffers,
            lastNotifiedBakingOf, lastNotifiedTxFeeOf, nearlyEqual]
    | some row =>
      cases hb : b.baking with
      | none =>
        cases ht : b.txFee with
        | none =>
          simp [flushCommissionBucket, hb, ht, commissionDiffers,
            lastNotifiedBakingOf, lastNotifiedTxFeeOf]
        | some y =>
          cases hnt : nearlyEqual (some y) row.lastNotifiedTxFee <;>
            simp [flushCommissionBucket, hb, ht, hnt, commissionDiffers,
              lastNotifiedBakingOf, lastNotifiedTxFeeOf]
      | some x =>
        cases ht : b.txFee with
        | none =>
          cases hnb : nearlyEqual (some x) row.lastNotifiedBaking <;>
            simp [flushCommissionBucket, hb, ht, hnb, commissionDiffers,
              lastNotifiedBakingOf, lastNotifiedTxFeeOf]
        | some y =>
          cases hnb : nearlyEqual (some x) row.lastNotifiedBaking <;>
            cases hnt : nearlyEqual (some y) row.lastNotifiedTxFee <;>
              simp [flushCommissionBucket, hb, ht, hnb, hnt, commissionDiffers,
                lastNotifiedBakingOf, lastNotifiedTxFeeOf]
  · intro row r h
    simp [flushCommissionBucket, h, nearlyEqual_refl]
  · intro row b0 t0 t h1 h2 hne
    simp [flushCommissionBucket, h1, h2, hne, coalesce]

theorem C5_commission_dedup_witness :
    (flushCommissionBucket
        (some ⟨some (1 / 10), some (1 / 20), some (1 / 10), some (1 / 20)⟩)
        ⟨some (1 / 10), none⟩ true).2 = none :=
  C5_commission_dedup.2.1 ⟨some (1 / 10), some (1 / 20), some (1 / 10), some (1 / 20)⟩
    (1 / 10) rfl

theorem aset_aset {α : Type} (m : List (String × α)) (k : String) (v w : α) :
    aset (aset m k v) k w = aset m k w := by
  induction m with
  | nil => simp [aset]
  | cons p rest ih =>
    obtain ⟨k2, v2⟩ := p
    by_cases hk : k2 = k
    · simp [aset, hk]
    · simp [aset, hk, ih]

/-- C4 counterexample: the claim says inserting only two of the three
new-delegator events still flushes exactly one partial notification.  With
the delegation-added and stake-increased facets but no target-set event the
bucket's `validatorId` stays null, so `flushNewDelegatorBucket` removes the
bucket and emits nothing. -/
theorem C4_two_facets_flush_nothing :
    (flushNewDelegatorBucket
        (handleNewDelegator_StakeIncreased
          (handleNewDelegator_DelegationAdded [] "42" "acct1" (some "abc"))
          "42" (some 1000000) (some "abc"))
        (bucketKeyForNewDelegator (some "abc") "42") true).2 = none := by
  decide

/-- C4 (amended): inserting all three related events (delegation added,
target set, stake increased) for one transaction/delegator within the window
flushes exactly one "new delegator" notification with all three facets, and
a repeated flush of the same key emits nothing; of the two-of-three partial
buckets, only delegation-added plus target-set still flushes one (partial)
notification — with the stake facet defaulting to 0 — while a bucket missing
the target-set or the delegation-added facet is dropped without any
notification. -/
theorem C4_new_delegator_bucket (m : NDBuckets) (d acct tx : String) (vid q : ℚ)
    (habs : alookup m (bucketKeyForNewDelegator (some tx) d) = none)
    (hacct : ¬ acct = "") :
    (flushNewDelegatorBucket
        (handleNewDelegator_StakeIncreased
          (handleNewDelegator_TargetSet
            (handleNewDelegator_DelegationAdded m d acct (some tx)) d vid (some tx))
          d (some q) (some tx))
        (bucketKeyForNewDelegator (some tx) d) true).2
      = some ⟨vid, acct, q, some tx⟩ ∧
    (flushNewDelegatorBucket
        (flushNewDelegatorBucket
          (handleNewDelegator_StakeIncreased
            (handleNewDelegator_TargetSet
              (handleNewDelegator_DelegationAdded m d acct (some tx)) d vid (some tx))
            d (some q) (some tx))
          (bucketKeyForNewDelegator (some tx) d) true).1
        (bucketKeyForNewDelegator (some tx) d) true).2 = none ∧
    (flushNewDelegatorBucket
        (handleNewDelegator_TargetSet
          (handleNewDelegator_DelegationAdded m d acct (some tx)) d vid (some tx))
        (bucketKeyForNewDelegator (some tx) d) true).2
      = some ⟨vid, acct, 0, some tx⟩ ∧
    (flushNewDelegatorBucket
        (handleNewDelegator_StakeIncreased
          (handleNewDelegator_DelegationAdded m d acct (some tx)) d (some q) (some tx))
        (bucketKeyForNewDelegator (some tx) d) true).2 = none ∧
    (flushNewDelegatorBucket
        (handleNewDelegator_StakeIncreased
          (handleNewDelegator_TargetSet m d vid (some tx)) d (some q) (some tx))
        (bucketKeyForNewDelegator (some tx) d) true).2 = none := by
  have e1 : handleNewDelegator_DelegationAdded m d acct (some tx)
      = aset m (bucketKeyForNewDelegator (some tx) d)
          ⟨true, some d, some acct, none, none, some tx, true⟩ := by
    simp [handleNewDelegator_DelegationAdded, getOrMakeNewDelegatorBucket, habs,
      emptyNDBucket, armTimer, aset_aset]
  have e2 : handleNewDelegator_TargetSet
        (aset m (bucketKeyForNewDelegator (some tx) d)
          ⟨true, some d, some acct, none, none, some tx, true⟩) d vid (some tx)
      = aset m (bucketKeyForNewDelegator (some tx) d)
          ⟨true, some d, some acct, some vid, none, some tx, true⟩ := by
    simp [handleNewDelegator_TargetSet, getOrMakeNewDelegatorBucket,
      alookup_aset_self, armTimer, aset_aset]
  have e3 : handleNewDelegator_StakeIncreased
        (aset m (bucketKeyForNewDelegator (some tx) d)
          ⟨true, some d, some acct, some vid, none, some tx, true⟩) d (some q) (some tx)
      = aset m (bucketKeyForNewDelegator (some tx) d)
          ⟨true, some d, some acct, some vid, some (some q), some tx, true⟩ := by
    simp [handleNewDelegator_StakeIncreased, getOrMakeNewDelegatorBucket,
      alookup_aset_self, armTimer, aset_aset]
  have g2 : handleNewDelegator_StakeIncreased
        (aset m (bucketKeyForNewDelegator (some tx) d)
          ⟨true, some d, some acct, none, none, some tx, true⟩) d (some q) (some tx)
      = aset m (bucketKeyForNewDelegator (some tx) d)
          ⟨true, some d, some acct, none, some (some q), some tx, true⟩ := by
    simp [handleNewDelegator_StakeIncreased, getOrMakeNewDelegatorBucket,
      alookup_aset_self, armTimer, aset_aset]
  have f1 : handleNewDelegator_TargetSet m d vid (some tx)
      = aset m (bucketKeyForNewDelegator (some tx) d)
          ⟨false, some d, none, some vid, none, some tx, true⟩ := by
    simp [handleNewDelegator_TargetSet, getOrMakeNewDelegatorBucket, habs,
      emptyNDBucket, armTimer, aset_aset]
  have f2 : handleNewDelegator_StakeIncreased
        (aset m (bucketKeyForNewDelegator (some tx) d)
          ⟨false, some d, none, some vid, none, some tx, true⟩) d (some q) (some tx)
      = aset m (bucketKeyForNewDelegator (some tx) d)
          ⟨false, some d, none, some vid, some (some q), some tx, true⟩ := by
    simp [handleNewDelegator_StakeIncreased, getOrMakeNewDelegatorBucket,
      alookup_aset_self, armTimer, aset_aset]
  refine ⟨?_, ?_, ?_, ?_, ?_⟩
  · rw [e1, e2, e3]
    simp [flushNewDelegatorBucket, alookup_aset_self, jsNumOfStakeField, hacct]
  · rw [e1, e2, e3]
    have hfst : (flushNewDelegatorBucket
        (aset m (bucketKeyForNewDelegator (some tx) d)
          ⟨true, some d, some acct, some vid, some (some q), some tx, true⟩)
        (bucketKeyForNewDelegator (some tx) d) true).1
        = aerase (aset m (bucketKeyForNewDelegator (some tx) d)
            ⟨true, some d, some acct, some vid, some (some q), some tx, true⟩)
          (bucketKeyForNewDelegator (some tx) d) := by
      simp [flushNewDelegatorBucket, alookup_aset_self, jsNumOfStakeField, hacct]
    rw [hfst]
    simp [flushNewDelegatorBucket, alookup_aerase_self]
  · rw [e1, e2]
    simp [flushNewDelegatorBucket, alookup_aset_self, jsNumOfStakeField, hacct]
  · rw [e1, g2]
    simp [flushNewDelegatorBucket, alookup_aset_self, jsNumOfStakeField]
  · rw [f1, f2]
    simp [flushNewDelegatorBucket, alookup_aset_self, jsNumOfStakeField]

theorem C4_new_delegator_bucket_witness :
    (flushNewDelegatorBucket
        (handleNewDelegator_StakeIncreased
          (handleNewDelegator_TargetSet
            (handleNewDelegator_DelegationAdded [] "42" "acct1" (some "abc"))
            "42" 7 (some "abc"))
          "42" (some 1000000) (some "abc"))
        (bucketKeyForNewDelegator (some "abc") "42") true).2
      = some ⟨7, "acct1", 1000000, some "abc"⟩ := by
  have h := C4_new_delegator_bucket [] "42" "acct1" "abc" 7 1000000 rfl (by decide)
  exact h.1
